import Mathlib

/-!
Verification of the qiniu rust-sdk storage core.

The development shallowly embeds the storage components of the SDK:
the form uploader's region failover loop (`storage/uploader/form_uploader.rs`),
the bucket builder and its lazy region cells (`storage/bucket.rs`),
object stat information (`storage/object.rs`), the batch uploader
(`storage/uploader/batch_uploader.rs`) and the uploader constructors
(`storage/uploader/upload_manager.rs`).

Components whose sources are not part of the crate snapshot (the HTTP
client wrapper with its retry classification and host rotation, the
single-flight `CacheMap`, the CRC32 helper) are modelled from the
specification; each such definition carries a doc comment saying so.
-/

namespace QiniuSdk

/-- An HTTP response as produced by the injected `HTTPCaller` mocks:
a status code and a body. Headers are irrelevant to the properties below. -/
structure HttpResp where
  status : Nat
  body : String
deriving DecidableEq, Repr

/-- Modelled from the spec: `RetryKind` of the HTTP client wrapper (§4.C),
`{Unretryable, RetryableError, HostUnretryableError, ZoneUnretryableError}`.
The `qiniu-http` error module is not in the crate snapshot. -/
inductive RetryKind where
  | unretryable
  | retryableError
  | hostUnretryableError
  | zoneUnretryableError
deriving DecidableEq, Repr

/-- An HTTP-level error: its retry classification plus the status and body
that produced it. -/
structure HTTPErr where
  kind : RetryKind
  status : Nat
  message : String
deriving DecidableEq, Repr

/-- Whether the first code list occurs at the start of the second. -/
def startsWithCodes : List Nat → List Nat → Bool
  | [], _ => true
  | _ :: _, [] => false
  | a :: as, b :: bs => a = b && startsWithCodes as bs

/-- Whether the first code list occurs anywhere inside the second. -/
def containsCodes (needle : List Nat) : List Nat → Bool
  | [] => startsWithCodes needle []
  | b :: bs => startsWithCodes needle (b :: bs) || containsCodes needle bs

/-- ASCII lowercasing of a character code. -/
def lowerCode (n : Nat) : Nat :=
  if 65 ≤ n ∧ n ≤ 90 then n + 32 else n

/-- The character codes of a string, ASCII-lowercased. -/
def lowerCodes (s : String) : List Nat :=
  s.data.map (fun c => lowerCode c.toNat)

/-- Modelled from the spec: the case-insensitive body check
`/incorrect (region|zone)/i` used to classify HTTP 400 responses (§4.C). -/
def incorrectRegionOrZone (body : String) : Bool :=
  let lower := lowerCodes body
  containsCodes (lowerCodes "incorrect region") lower ||
    containsCodes (lowerCodes "incorrect zone") lower

/-- Modelled from the spec: retry classification of a non-2xx response (§4.C).
HTTP 400 with a body matching the region/zone pattern is zone-unretryable;
other 4xx are unretryable; 5xx below 503 are retryable; 503 and above
(within 5xx) are host-unretryable; anything else surfaces unretryable. -/
def classifyKind (r : HttpResp) : RetryKind :=
  if r.status = 400 ∧ incorrectRegionOrZone r.body then .zoneUnretryableError
  else if 400 ≤ r.status ∧ r.status < 500 then .unretryable
  else if 500 ≤ r.status ∧ r.status < 503 then .retryableError
  else if 503 ≤ r.status ∧ r.status < 600 then .hostUnretryableError
  else .unretryable

/-- The error built from a failed response. -/
def errOfResp (r : HttpResp) : HTTPErr :=
  ⟨classifyKind r, r.status, r.body⟩

/-- Whether a response counts as success (2xx). -/
def isSuccess (r : HttpResp) : Bool :=
  decide (200 ≤ r.status ∧ r.status < 300)

/-- A mock server: given the base URL attempted and the global attempt index,
produce the response. The counting mocks in the test suite ignore the request,
so constant servers model them exactly. -/
abbrev Server := String → Nat → HttpResp

/-- The log of physical HTTP attempts: which base URL was tried and what the
server answered. Its length is the call counter of `CounterCallMock`. -/
abbrev AttemptLog := List (String × HttpResp)

/-- One physical HTTP attempt against `host`, appended to the log. -/
def attemptOnce (server : Server) (host : String) (log : AttemptLog) :
    Except HTTPErr HttpResp × AttemptLog :=
  let r := server host log.length
  if isSuccess r then (.ok r, log ++ [(host, r)])
  else (.error (errOfResp r), log ++ [(host, r)])

/-- Modelled from the spec: the per-host retry loop of the HTTP client
wrapper (§4.C). A `RetryableError` is retried on the same host up to the
`http_request_retries` budget (`fuel`); any other outcome ends the loop. -/
def tryHost (server : Server) (host : String) :
    Nat → AttemptLog → Except HTTPErr HttpResp × AttemptLog
  | fuel, log =>
    match attemptOnce server host log with
    | (.ok v, log₁) => (.ok v, log₁)
    | (.error e, log₁) =>
      if e.kind = .retryableError then
        match fuel with
        | 0 => (.error e, log₁)
        | f + 1 => tryHost server host f log₁
      else (.error e, log₁)

/-- The error reported by the client when it is given no host at all;
never reached by the scenarios below, which use non-empty host lists. -/
def noHostErr : HTTPErr := ⟨.unretryable, 0, "no host available"⟩

/-- Modelled from the spec: ordered host rotation of one request (§4.C).
Hosts are tried in order; `RetryableError` (after its budget) and
`HostUnretryableError` advance to the next host, `ZoneUnretryableError`
and `Unretryable` end the rotation; exhausting the hosts surfaces the
last error. -/
def tryHosts (server : Server) (retries : Nat) :
    List String → Option HTTPErr → AttemptLog → Except HTTPErr HttpResp × AttemptLog
  | [], prev, log => (.error (prev.getD noHostErr), log)
  | host :: rest, _prev, log =>
    match tryHost server host retries log with
    | (.ok v, log₁) => (.ok v, log₁)
    | (.error e, log₁) =>
      match e.kind with
      | .retryableError | .hostUnretryableError => tryHosts server retries rest (some e) log₁
      | _ => (.error e, log₁)

/-- `FormUploader::send` (form_uploader.rs lines 135-154): iterate the
regions of `up_urls_list`; a retryable-class error (`RetryableError`,
`HostUnretryableError` or `ZoneUnretryableError`) is remembered in
`prev_err` and the next region is tried; any other error returns at once.
After the last region the remembered error is surfaced. `none` stands for
the `expect` panic on an empty region list. -/
def sendLoop (server : Server) (retries : Nat) :
    List (List String) → Option HTTPErr → AttemptLog →
      Option (Except HTTPErr HttpResp) × AttemptLog
  | [], prev, log => (prev.map .error, log)
  | upUrls :: rest, _prev, log =>
    match tryHosts server retries upUrls none log with
    | (.ok v, log₁) => (some (.ok v), log₁)
    | (.error e, log₁) =>
      match e.kind with
      | .retryableError | .hostUnretryableError | .zoneUnretryableError =>
        sendLoop server retries rest (some e) log₁
      | _ => (some (.error e), log₁)

/-- `FormUploader::send` starting from an empty attempt log. -/
def send (server : Server) (retries : Nat) (upUrlsList : List (List String)) :
    Option (Except HTTPErr HttpResp) × AttemptLog :=
  sendLoop server retries upUrlsList none []

/-- The mock of the 500-error test: every call answers `500 test error`. -/
def server500 : Server := fun _ _ => ⟨500, "test error"⟩

/-- The mock of the 400-incorrect-region test. -/
def server400zone : Server := fun _ _ => ⟨400, "incorrect region, please use z3h1.com"⟩

/-- Two regions of two hosts each, as in the form uploader tests. -/
def upUrls2x2 : List (List String) :=
  [["http://z1h1.com", "http://z1h2.com"], ["http://z2h1.com", "http://z2h2.com"]]

/-- A mock that always answers a plain 404: an ordinary 4xx error, which the
classification marks unretryable. -/
def server404 : Server := fun _ _ => ⟨404, "not found"⟩

/-- A region value. `region.rs` is not in the crate snapshot; the claims
below treat regions as opaque values, so an identifier-carrying structure
suffices. -/
structure Region where
  rid : Nat
deriving DecidableEq, Repr

/-- The region-related state of `BucketBuilder` (bucket.rs lines 60-68).
The name, credential and client fields play no role in the claims. -/
structure BucketBuilder where
  region : Option Region
  backupRegions : List Region
deriving DecidableEq, Repr

/-- `BucketBuilder::new` (bucket.rs lines 82-92): `region` unset,
`backup_regions` empty. -/
def BucketBuilder.new : BucketBuilder := ⟨none, []⟩

/-- `BucketBuilder::region` (bucket.rs lines 117-124): the first call sets
the primary region, every later call appends a backup region. Named
`addRegion` because `region` is the field it updates. -/
def BucketBuilder.addRegion (b : BucketBuilder) (r : Region) : BucketBuilder :=
  match b.region with
  | none => { b with region := some r }
  | some _ => { b with backupRegions := b.backupRegions ++ [r] }

/-- The region cells of a built `Bucket` (bucket.rs lines 33-43): `region`
and `backup_regions` are write-once lazy cells, `none` when still unset. -/
structure Bucket where
  regionCell : Option Region
  backupRegionsCell : Option (List Region)
deriving DecidableEq, Repr

/-- `BucketBuilder::build` (bucket.rs lines 197-234): when a region was
configured the region cell is pre-filled with it and the backup cell with
the configured backups; otherwise both cells start unset. -/
def BucketBuilder.build (b : BucketBuilder) : Bucket :=
  match b.region with
  | some r => ⟨some r, some b.backupRegions⟩
  | none => ⟨none, none⟩

/-- The sequence produced by `BucketRegionIter::next` (bucket.rs lines
477-498): the primary region from the region cell first, then each backup
region in order; nothing when the region cell is unset. -/
def Bucket.regionsList (bk : Bucket) : List Region :=
  match bk.regionCell with
  | none => []
  | some r => r :: bk.backupRegionsCell.getD []

/-- The vector left over by `Vec::swap_remove(0)`: the last element is
swapped into the removed slot (used on the query result in
`Bucket::region`, bucket.rs line 268). -/
def swapRemoveRest : List Region → List Region
  | [] => []
  | [_] => []
  | _ :: r₂ :: rest₂ =>
    match (r₂ :: rest₂).getLast? with
    | some last => last :: (r₂ :: rest₂).dropLast
    | none => []

/-- `Bucket::region` (bucket.rs lines 262-275) with the HTTP query made
explicit: a set region cell is returned as is with no HTTP call; an unset
cell triggers `Region::query`, whose first region fills the cell and whose
remainder (after `swap_remove(0)`) fills the backup cell if still unset.
The result is the region, the updated bucket and the number of HTTP calls
issued. An empty query result makes the Rust code panic; it is modelled by
`none`. -/
def Bucket.regionGet (bk : Bucket) (queryResult : List Region) :
    Option Region × Bucket × Nat :=
  match bk.regionCell with
  | some r => (some r, bk, 0)
  | none =>
    match queryResult with
    | [] => (none, bk, 1)
    | r :: rest =>
      (some r, ⟨some r, some (bk.backupRegionsCell.getD (swapRemoveRest (r :: rest)))⟩, 1)

/-- `ObjectInfo` (object.rs lines 128-139): the JSON stat payload with
fields `fsize`, `hash`, `mimeType` and `putTime`. -/
structure ObjectInfo where
  fsize : Nat
  hash : String
  mimeType : String
  putTime : Nat
deriving DecidableEq, Repr

/-- `ObjectInfo::size` (object.rs lines 146-148). -/
def ObjectInfo.size (o : ObjectInfo) : Nat := o.fsize

/-- `ObjectInfo::uploaded_at` (object.rs lines 166-168):
`UNIX_EPOCH + Duration::from_nanos(put_time * 100)`, expressed here as
nanoseconds since the Unix epoch. -/
def ObjectInfo.uploadedAtNanos (o : ObjectInfo) : Nat := o.putTime * 100

/-- Modelled from the spec: day number of a proleptic-Gregorian civil date
relative to 1970-01-01, for dates from 1970 on. Used only to state the
expected RFC3339 timestamp of the stat scenario; the rendering itself is
done by an external date library in the tests. -/
def daysFromCivil (y m d : Nat) : Nat :=
  let yShifted := if m ≤ 2 then y - 1 else y
  let era := yShifted / 400
  let yearOfEra := yShifted % 400
  let monthShifted := (m + 9) % 12
  let dayOfYear := (153 * monthShifted + 2) / 5 + (d - 1)
  let dayOfEra := yearOfEra * 365 + yearOfEra / 4 - yearOfEra / 100 + dayOfYear
  era * 146097 + dayOfEra - 719468

/-- Seconds since the Unix epoch of a civil UTC datetime. -/
def epochSecondsOfCivil (y m d hh mm ss : Nat) : Nat :=
  daysFromCivil y m d * 86400 + hh * 3600 + mm * 60 + ss

/-- Nanoseconds since the Unix epoch of a civil UTC datetime with a
nanosecond remainder. -/
def epochNanosOfCivil (y m d hh mm ss ns : Nat) : Nat :=
  epochSecondsOfCivil y m d hh mm ss * 1000000000 + ns

/-- The stat payload of the object-stat scenario. -/
def statObjectInfo : ObjectInfo :=
  ⟨5122935, "ljfockr0lOil_bZfyaI2ZY78HWoH", "application/octet-stream", 13603956734587420⟩

/-- `CreateUploaderError` (upload_manager.rs lines 174-185). -/
inductive CreateUploaderError where
  | uploadTokenParseError
  | qiniuAPIError
  | bucketIsMissingInUploadToken
deriving DecidableEq, Repr

/-- Modelled from the spec: an upload policy as the uploader constructors
see it; `bucket()` is the bucket named by the `scope` field, absent when
the scope names no bucket (`upload_policy.rs` is not in the crate
snapshot). -/
structure UploadPolicy where
  bucket : Option String
deriving DecidableEq, Repr

/-- Modelled from the spec: an upload token as consumed by the uploader
constructors; `policy()` either parses to a policy or fails with a parse
error (`upload_token.rs` is not in the crate snapshot). -/
structure UploadToken where
  policyResult : Except Unit UploadPolicy

/-- `UploadManager::upload_for_upload_token` (upload_manager.rs lines
85-100): parse the policy; a policy naming a bucket yields a `FileUploader`
for that bucket (represented by the bucket name), a policy without one is
rejected with `BucketIsMissingInUploadToken`. -/
def uploadForUploadToken (t : UploadToken) : Except CreateUploaderError String :=
  match t.policyResult with
  | .error _ => .error .uploadTokenParseError
  | .ok policy =>
    match policy.bucket with
    | some bucketName => .ok bucketName
    | none => .error .bucketIsMissingInUploadToken

/-- A batch upload job; its payload (token override, callbacks, target) is
opaque to the properties below. -/
structure BatchUploadJob where
  jobId : Nat
deriving DecidableEq, Repr

/-- `BatchUploader` (batch_uploader.rs lines 63-73): the job vector plus
the builder settings of its context; the core handle (upload manager or
bucket) plays no role in the claims. -/
structure BatchUploader where
  jobs : List BatchUploadJob
  maxConcurrency : Nat
  threadPoolSize : Nat
deriving DecidableEq, Repr

/-- `BatchUploader::new_for_upload_manager` (batch_uploader.rs lines
76-94): reject a token whose policy names no bucket; otherwise start with
no jobs and zero concurrency settings. -/
def newForUploadManager (t : UploadToken) : Except CreateUploaderError BatchUploader :=
  match t.policyResult with
  | .error _ => .error .uploadTokenParseError
  | .ok policy =>
    if policy.bucket = none then .error .bucketIsMissingInUploadToken
    else .ok ⟨[], 0, 0⟩

/-- `Vec::pop`: remove and return the last element. -/
def vecPop (js : List BatchUploadJob) : Option (BatchUploadJob × List BatchUploadJob) :=
  match js.reverse with
  | [] => none
  | j :: rest => some (j, rest.reverse)

/-- The `while let Some(job) = jobs.pop()` drain loop of
`BatchUploader::start` (batch_uploader.rs lines 149-153). The fuel is
instantiated with the vector length, enough for the loop to run to
completion. Returns the leftover vector and the spawned jobs in pop
order. -/
def popLoop : Nat → List BatchUploadJob → List BatchUploadJob →
    List BatchUploadJob × List BatchUploadJob
  | 0, js, spawned => (js, spawned)
  | fuel + 1, js, spawned =>
    match vecPop js with
    | none => (js, spawned)
    | some (j, rest) => popLoop fuel rest (spawned ++ [j])

/-- `BatchUploader::start` (batch_uploader.rs lines 144-156): swap the job
vector out for an empty one, drain it onto the pool, store the drained
vector back. Returns the updated uploader and the jobs handed to the
pool. -/
def startBatch (u : BatchUploader) : BatchUploader × List BatchUploadJob :=
  let drained := popLoop u.jobs.length u.jobs []
  ({ u with jobs := drained.1 }, drained.2)

/-- `BatchUploader::push_job` (batch_uploader.rs lines 133-136). -/
def pushJob (u : BatchUploader) (j : BatchUploadJob) : BatchUploader :=
  { u with jobs := u.jobs ++ [j] }

/-- A multipart form part: a text field or the bytes of the file stream. -/
inductive PartContent where
  | text (s : String)
  | file (bytes : List Nat)
deriving DecidableEq, Repr

/-- The multipart body under construction: named parts in insertion order
(`qiniu_multipart::client::lazy::Multipart` appends parts in call order). -/
abbrev Multipart := List (String × PartContent)

/-- A seekable stream: its bytes and the current read position. -/
structure SeekableStream where
  data : List Nat
  pos : Nat
deriving DecidableEq, Repr

/-- `Read::read_to_end`: the bytes from the current position on; the
position ends up at the end of the stream. -/
def streamReadToEnd (s : SeekableStream) : List Nat × SeekableStream :=
  (s.data.drop s.pos, { s with pos := s.data.length })

/-- `Seek::seek(SeekFrom::Start(0))`. -/
def seekStart (s : SeekableStream) : SeekableStream := { s with pos := 0 }

/-- Modelled from the spec: one round of the CRC32/IEEE bit loop with the
reflected polynomial 0xEDB88320 (`utils/crc32.rs` is not in the crate
snapshot). -/
def crc32Round (c : Nat) : Nat :=
  if c % 2 = 1 then Nat.xor (c / 2) 0xEDB88320 else c / 2

/-- Iterate the CRC32 bit round. -/
def crc32Rounds : Nat → Nat → Nat
  | 0, c => c
  | k + 1, c => crc32Rounds k (crc32Round c)

/-- Fold one input byte into the CRC32 state. -/
def crc32Update (crc b : Nat) : Nat := crc32Rounds 8 (Nat.xor crc (b % 256))

/-- Modelled from the spec: `CRC32/IEEE` of a byte sequence, the checksum
computed by `crc32::from` over the stream. -/
def crc32 (bytes : List Nat) : Nat :=
  Nat.xor (bytes.foldl crc32Update 0xFFFFFFFF) 0xFFFFFFFF

/-- `FormUploaderBuilder::new` (form_uploader.rs lines 38-55): the builder
starts its multipart body with the `token` part. -/
def formBuilderNew (uploadToken : String) : Multipart :=
  [("token", .text uploadToken)]

/-- `FormUploaderBuilder::key` (form_uploader.rs lines 57-60). -/
def formBuilderKey (m : Multipart) (key : String) : Multipart :=
  m ++ [("key", .text key)]

/-- `FormUploaderBuilder::var` (form_uploader.rs lines 62-65). -/
def formBuilderVar (m : Multipart) (k v : String) : Multipart :=
  m ++ [("x:" ++ k, .text v)]

/-- `FormUploaderBuilder::metadata` (form_uploader.rs lines 67-71). -/
def formBuilderMetadata (m : Multipart) (k v : String) : Multipart :=
  m ++ [("x-qn-meta-" ++ k, .text v)]

/-- `FormUploaderBuilder::seekable_stream` (form_uploader.rs lines 78-96):
with checksum enabled, read the whole stream to compute its CRC32, seek
back to offset 0, add the `file` part from the (reset) stream, then the
`crc32` part as a decimal string; with checksum disabled no CRC32 is
computed and no `crc32` part is added. The file name and MIME type only
decorate the `file` part and are omitted. -/
def formBuilderSeekableStream (m : Multipart) (stream : SeekableStream)
    (checksumEnabled : Bool) : Multipart :=
  let checked :=
    if checksumEnabled then
      let readResult := streamReadToEnd stream
      (some (crc32 readResult.1), seekStart readResult.2)
    else (none, stream)
  let withFile := m ++ [("file", .file (checked.2.data.drop checked.2.pos))]
  match checked.1 with
  | some c => withFile ++ [("crc32", .text (Nat.repr c))]
  | none => withFile

/-- `FormUploaderBuilder::stream` (form_uploader.rs lines 98-111): for a
non-seekable stream the uploader computes no CRC32 itself; a `crc32` part
appears only when the caller supplies a checksum. -/
def formBuilderStream (m : Multipart) (bytes : List Nat) (crcOpt : Option Nat) : Multipart :=
  let withFile := m ++ [("file", .file bytes)]
  match crcOpt with
  | some c => withFile ++ [("crc32", .text (Nat.repr c))]
  | none => withFile

/-- Modelled from the spec: the outcome of the one in-flight computation of
a single-flight cache entry (§4.D/§4.E); region vectors and domain lists
are represented by numbers since only their identity matters. -/
inductive FlightOutcome where
  | success (v : Nat)
  | failure (e : Nat)
deriving DecidableEq, Repr

/-- Modelled from the spec: the state of one `CacheMap` key (§4.D): unset,
computation in flight, or cached value (`utils/cache_map.rs` is not in the
crate snapshot; `Region::query` and `domain::query`, bucket.rs lines
455-469, consult it). -/
inductive EntryState where
  | empty
  | inflight
  | cached (v : Nat)
deriving DecidableEq, Repr

/-- Modelled from the spec: the observable state of one single-flight cache
key under a population of interchangeable concurrent callers: how many have
not yet arrived, how many are parked waiting, how many are computing (the
leader), the values and errors observed by finished callers, and the number
of underlying HTTP calls issued. -/
structure FlightState where
  entry : EntryState
  notArrived : Nat
  waiting : Nat
  leading : Nat
  gotValues : List Nat
  gotErrors : List Nat
  httpCalls : Nat
deriving DecidableEq, Repr

/-- Modelled from the spec: the events of the single-flight protocol — a
caller arrives at the cache, or the in-flight computation completes. -/
inductive FlightEvent where
  | arrive
  | complete
deriving DecidableEq, Repr

/-- Modelled from the spec (§4.D, §5): a caller reaching
`CacheMap::try_get_or_insert`. On an unset entry it becomes the leader and
issues the one underlying HTTP call; on an in-flight entry it parks; on a
cached entry it observes the value with no call. -/
def arriveStep (s : FlightState) : FlightState :=
  if s.notArrived = 0 then s
  else
    match s.entry with
    | .empty =>
      { s with notArrived := s.notArrived - 1, leading := s.leading + 1,
               entry := .inflight, httpCalls := s.httpCalls + 1 }
    | .inflight => { s with notArrived := s.notArrived - 1, waiting := s.waiting + 1 }
    | .cached v => { s with notArrived := s.notArrived - 1, gotValues := s.gotValues ++ [v] }

/-- Modelled from the spec (§4.D, §5): completion of the in-flight
computation. On success the value is cached and the leader and every parked
caller observe it. On failure the entry is purged (removed, not poisoned):
the leader alone observes the error and the parked callers go back to
not-arrived, free to re-attempt. -/
def completeStep (o : FlightOutcome) (s : FlightState) : FlightState :=
  match s.entry with
  | .inflight =>
    match o with
    | .success v =>
      { s with entry := .cached v, leading := 0, waiting := 0,
               gotValues := s.gotValues ++ List.replicate (s.leading + s.waiting) v }
    | .failure e =>
      { s with entry := .empty, leading := 0, waiting := 0,
               notArrived := s.notArrived + s.waiting,
               gotErrors := s.gotErrors ++ List.replicate s.leading e }
  | _ => s

/-- One protocol event. -/
def flightStep (o : FlightOutcome) (s : FlightState) : FlightEvent → FlightState
  | .arrive => arriveStep s
  | .complete => completeStep o s

/-- Run a sequence of protocol events. -/
def flightRun (o : FlightOutcome) (s : FlightState) (evs : List FlightEvent) : FlightState :=
  evs.foldl (flightStep o) s

/-- The initial state for `n` concurrent callers of one cache key. -/
def flightInit (n : Nat) : FlightState := ⟨.empty, n, 0, 0, [], [], 0⟩

/-- Invariant of the single-flight protocol when the computation succeeds
with `v`: at most one HTTP call ever happens, nothing is observed before
the first call, the cache can only hold `v`, every observed value is `v`
and no error is observed. -/
def SuccessInv (v : Nat) (s : FlightState) : Prop :=
  s.httpCalls ≤ 1 ∧
  (s.httpCalls = 0 → s.entry = .empty ∧ s.waiting = 0 ∧ s.leading = 0 ∧ s.gotValues = []) ∧
  (s.entry = .empty → s.httpCalls = 0) ∧
  (∀ w, s.entry = .cached w → w = v) ∧
  (∀ w ∈ s.gotValues, w = v) ∧
  s.gotErrors = []

/-- Invariant of the single-flight protocol when the computation fails with
`e`: each issued HTTP call is accounted for by exactly one error observer
or by the single in-flight leader, the entry is never populated, no value
is observed and every observed error is `e`. -/
def FailureInv (e : Nat) (s : FlightState) : Prop :=
  s.gotErrors.length + s.leading = s.httpCalls ∧
  s.leading ≤ 1 ∧
  (s.entry = .inflight ↔ s.leading = 1) ∧
  (∀ w, s.entry ≠ .cached w) ∧
  s.gotValues = [] ∧
  (∀ x ∈ s.gotErrors, x = e)

/-- C1: with `http_request_retries = 3` and two regions of two hosts each,
a server that always answers HTTP 500 makes `FormUploader::send` perform
exactly 16 HTTP attempts (4 per host: the initial attempt plus 3 retries,
times 2 hosts per region, times 2 regions) and return an error classified
`RetryableError`. -/
theorem form_upload_500_sixteen_attempts_retryable :
    (send server500 3 upUrls2x2).2.length = 16 ∧
    (send server500 3 upUrls2x2).2.map Prod.fst =
      ["http://z1h1.com", "http://z1h1.com", "http://z1h1.com", "http://z1h1.com",
       "http://z1h2.com", "http://z1h2.com", "http://z1h2.com", "http://z1h2.com",
       "http://z2h1.com", "http://z2h1.com", "http://z2h1.com", "http://z2h1.com",
       "http://z2h2.com", "http://z2h2.com", "http://z2h2.com", "http://z2h2.com"] ∧
    (send server500 3 upUrls2x2).1 =
      some (.error ⟨.retryableError, 500, "test error"⟩) :=
  ⟨rfl, rfl, rfl⟩

/-- C3: an HTTP 400 response whose body matches the incorrect-region pattern
is classified `ZoneUnretryableError`, and with two regions `FormUploader::send`
makes exactly 2 attempts, one against the first host of each region (no
in-region retry, no rotation to the second host). -/
theorem form_upload_400_incorrect_region_two_attempts :
    classifyKind ⟨400, "incorrect region, please use z3h1.com"⟩ = .zoneUnretryableError ∧
    send server400zone 3 upUrls2x2 =
      (some (.error ⟨.zoneUnretryableError, 400, "incorrect region, please use z3h1.com"⟩),
       [("http://z1h1.com", ⟨400, "incorrect region, please use z3h1.com"⟩),
        ("http://z2h1.com", ⟨400, "incorrect region, please use z3h1.com"⟩)]) :=
  ⟨rfl, rfl⟩

/-- One-step unfolding of `tryHosts` on a failing head host. -/
theorem tryHosts_cons_error (server : Server) (retries : Nat) (host : String)
    (rest : List String) (prev : Option HTTPErr) (log : AttemptLog)
    (e : HTTPErr) (log₁ : AttemptLog)
    (h : tryHost server host retries log = (.error e, log₁)) :
    tryHosts server retries (host :: rest) prev log =
      match e.kind with
      | .retryableError | .hostUnretryableError => tryHosts server retries rest (some e) log₁
      | _ => (.error e, log₁) := by
  simp [tryHosts, h]

/-- One-step unfolding of `sendLoop` on a failing head region. -/
theorem sendLoop_cons_error (server : Server) (retries : Nat) (upUrls : List String)
    (rest : List (List String)) (prev : Option HTTPErr) (log : AttemptLog)
    (e : HTTPErr) (log₁ : AttemptLog)
    (h : tryHosts server retries upUrls none log = (.error e, log₁)) :
    sendLoop server retries (upUrls :: rest) prev log =
      match e.kind with
      | .retryableError | .hostUnretryableError | .zoneUnretryableError =>
        sendLoop server retries rest (some e) log₁
      | _ => (some (.error e), log₁) := by
  simp [sendLoop, h]

/-- When the server never answers 2xx, the per-host retry loop ends with the
error classified from the response of its last attempt, which is the last
entry it appended to the log. -/
theorem tryHost_fail (server : Server) (host : String)
    (hfail : ∀ h n, isSuccess (server h n) = false) :
    ∀ (fuel : Nat) (log : AttemptLog), ∃ log₁ n,
      tryHost server host fuel log =
        (.error (errOfResp (server host n)), log₁ ++ [(host, server host n)]) := by
  intro fuel
  induction fuel with
  | zero =>
    intro log
    refine ⟨log, log.length, ?_⟩
    by_cases hk : (errOfResp (server host log.length)).kind = RetryKind.retryableError
    · simp [tryHost, attemptOnce, hfail, hk]
    · simp [tryHost, attemptOnce, hfail, hk]
  | succ f ih =>
    intro log
    by_cases hk : (errOfResp (server host log.length)).kind = RetryKind.retryableError
    · obtain ⟨log₁, n, hr⟩ := ih (log ++ [(host, server host log.length)])
      exact ⟨log₁, n, by simp [tryHost, attemptOnce, hfail, hk, hr]⟩
    · exact ⟨log, log.length, by simp [tryHost, attemptOnce, hfail, hk]⟩

/-- When the server never answers 2xx, host rotation over a non-empty host
list ends with the error classified from the response of the last attempt. -/
theorem tryHosts_fail (server : Server) (retries : Nat)
    (hfail : ∀ h n, isSuccess (server h n) = false) :
    ∀ (hosts : List String), hosts ≠ [] → ∀ (prev : Option HTTPErr) (log : AttemptLog),
      ∃ log₁ h n, tryHosts server retries hosts prev log =
        (.error (errOfResp (server h n)), log₁ ++ [(h, server h n)]) := by
  intro hosts
  induction hosts with
  | nil => intro h; exact absurd rfl h
  | cons host rest ih =>
    intro _ prev log
    obtain ⟨log₁, n, hr⟩ := tryHost_fail server host hfail retries log
    cases rest with
    | nil =>
      cases hk : classifyKind (server host n) with
      | retryableError => exact ⟨log₁, host, n, by simp [tryHosts, hr, errOfResp, hk]⟩
      | hostUnretryableError => exact ⟨log₁, host, n, by simp [tryHosts, hr, errOfResp, hk]⟩
      | zoneUnretryableError => exact ⟨log₁, host, n, by simp [tryHosts, hr, errOfResp, hk]⟩
      | unretryable => exact ⟨log₁, host, n, by simp [tryHosts, hr, errOfResp, hk]⟩
    | cons h₂ rest₂ =>
      have hkeq : (errOfResp (server host n)).kind = classifyKind (server host n) := rfl
      cases hk : classifyKind (server host n) with
      | retryableError =>
        obtain ⟨log₂, h₃, n₃, hr₂⟩ :=
          ih (by simp) (some (errOfResp (server host n))) (log₁ ++ [(host, server host n)])
        refine ⟨log₂, h₃, n₃, ?_⟩
        rw [tryHosts_cons_error server retries host (h₂ :: rest₂) prev log _ _ hr, hkeq, hk]
        exact hr₂
      | hostUnretryableError =>
        obtain ⟨log₂, h₃, n₃, hr₂⟩ :=
          ih (by simp) (some (errOfResp (server host n))) (log₁ ++ [(host, server host n)])
        refine ⟨log₂, h₃, n₃, ?_⟩
        rw [tryHosts_cons_error server retries host (h₂ :: rest₂) prev log _ _ hr, hkeq, hk]
        exact hr₂
      | zoneUnretryableError =>
        exact ⟨log₁, host, n, by simp [tryHosts, hr, errOfResp, hk]⟩
      | unretryable =>
        exact ⟨log₁, host, n, by simp [tryHosts, hr, errOfResp, hk]⟩

/-- C4: `FormUploader::send` error propagation. First conjunct: when every
attempt fails and no response classifies as plain `Unretryable` (so every
error is retryable-class), exhausting every host of every region returns the
error classified from the very last attempt made (the last log entry).
Second conjunct: an error of any other retry kind (`Unretryable`) ends the
region loop at once: the result and the attempt log are those of the failing
region, whatever regions remain. -/
theorem send_error_propagation (server : Server) (retries : Nat) :
    ((∀ h n, isSuccess (server h n) = false) →
     (∀ h n, classifyKind (server h n) ≠ RetryKind.unretryable) →
     ∀ (regions : List (List String)), regions ≠ [] → (∀ reg ∈ regions, reg ≠ []) →
       ∃ log₁ h n, send server retries regions =
         (some (.error (errOfResp (server h n))), log₁ ++ [(h, server h n)]))
    ∧
    (∀ (hosts : List String) (rest : List (List String)) (log : AttemptLog)
       (e : HTTPErr) (log₁ : AttemptLog),
       tryHosts server retries hosts none log = (.error e, log₁) →
       e.kind = RetryKind.unretryable →
       sendLoop server retries (hosts :: rest) none log = (some (.error e), log₁)) := by
  constructor
  · intro hfail hkind regions
    suffices h : ∀ (regions : List (List String)), regions ≠ [] → (∀ reg ∈ regions, reg ≠ []) →
        ∀ (prev : Option HTTPErr) (log : AttemptLog),
          ∃ log₁ h n, sendLoop server retries regions prev log =
            (some (.error (errOfResp (server h n))), log₁ ++ [(h, server h n)]) by
      intro hne hall
      exact h regions hne hall none []
    intro regions
    induction regions with
    | nil => intro h; exact absurd rfl h
    | cons reg rest ih =>
      intro _ hall prev log
      obtain ⟨log₁, h₁, n₁, hr⟩ :=
        tryHosts_fail server retries hfail reg (hall reg (by simp)) none log
      have hk₁ := hkind h₁ n₁
      cases rest with
      | nil =>
        cases hk : classifyKind (server h₁ n₁) with
        | unretryable => exact absurd hk hk₁
        | retryableError => exact ⟨log₁, h₁, n₁, by simp [sendLoop, hr, errOfResp, hk]⟩
        | hostUnretryableError => exact ⟨log₁, h₁, n₁, by simp [sendLoop, hr, errOfResp, hk]⟩
        | zoneUnretryableError => exact ⟨log₁, h₁, n₁, by simp [sendLoop, hr, errOfResp, hk]⟩
      | cons reg₂ rest₂ =>
        obtain ⟨log₂, h₂, n₂, hr₂⟩ :=
          ih (by simp) (fun r hrm => hall r (by simp [hrm]))
            (some (errOfResp (server h₁ n₁))) (log₁ ++ [(h₁, server h₁ n₁)])
        have hkeq : (errOfResp (server h₁ n₁)).kind = classifyKind (server h₁ n₁) := rfl
        cases hk : classifyKind (server h₁ n₁) with
        | unretryable => exact absurd hk hk₁
        | retryableError =>
          refine ⟨log₂, h₂, n₂, ?_⟩
          rw [sendLoop_cons_error server retries reg (reg₂ :: rest₂) prev log _ _ hr, hkeq, hk]
          exact hr₂
        | hostUnretryableError =>
          refine ⟨log₂, h₂, n₂, ?_⟩
          rw [sendLoop_cons_error server retries reg (reg₂ :: rest₂) prev log _ _ hr, hkeq, hk]
          exact hr₂
        | zoneUnretryableError =>
          refine ⟨log₂, h₂, n₂, ?_⟩
          rw [sendLoop_cons_error server retries reg (reg₂ :: rest₂) prev log _ _ hr, hkeq, hk]
          exact hr₂
  · intro hosts rest log e log₁ h₁ h₂
    simp [sendLoop, h₁, h₂]

/-- Witness for `send_error_propagation`: the always-500 mock on one region
of one host with no retries surfaces the last attempt's error; a plain 404
on the first region returns at once, leaving the second region untouched. -/
theorem send_error_propagation_witness :
    (∃ log₁ h n, send server500 0 [["http://z1h1.com"]] =
       (some (.error (errOfResp (server500 h n))), log₁ ++ [(h, server500 h n)])) ∧
    sendLoop server404 0 [["http://z1h1.com"], ["http://z2h1.com"]] none [] =
      (some (.error ⟨.unretryable, 404, "not found"⟩),
        [("http://z1h1.com", ⟨404, "not found"⟩)]) :=
  ⟨(send_error_propagation server500 0).1 (fun _ _ => rfl)
      (fun h n => by
        rw [show classifyKind (server500 h n) = RetryKind.retryableError from rfl]
        exact fun hc => RetryKind.noConfusion hc)
      [["http://z1h1.com"]] (by simp) (by simp),
   (send_error_propagation server404 0).2 ["http://z1h1.com"] [["http://z2h1.com"]] [] _ _ rfl rfl⟩

/-- Folding `BucketBuilder::region` calls onto a builder whose primary
region is already set appends each region as a backup, in order. -/
theorem foldl_addRegion_some (rest : List Region) : ∀ (r : Region) (bs : List Region),
    rest.foldl BucketBuilder.addRegion ⟨some r, bs⟩ = ⟨some r, bs ++ rest⟩ := by
  induction rest with
  | nil => intro r bs; simp
  | cons x xs ih =>
    intro r bs
    simp only [List.foldl_cons, BucketBuilder.addRegion]
    rw [ih]
    simp

/-- C6: calling `BucketBuilder::region` with `r1, ..., rn` (n at least 1)
sets `r1` as the primary region and appends the rest as backups, and after
`build()` the iterator of `Bucket::regions()` yields exactly `r1` first and
then `r2, ..., rn` in the order given. -/
theorem bucket_builder_region_order (r₁ : Region) (rest : List Region) :
    ((rest.foldl BucketBuilder.addRegion (BucketBuilder.new.addRegion r₁)).build).regionCell
        = some r₁ ∧
    ((rest.foldl BucketBuilder.addRegion (BucketBuilder.new.addRegion r₁)).build).regionsList
        = r₁ :: rest := by
  have h₁ : BucketBuilder.new.addRegion r₁ = ⟨some r₁, []⟩ := rfl
  rw [h₁, foldl_addRegion_some]
  exact ⟨rfl, rfl⟩

/-- C7: `ObjectInfo` exposes `size` as the `fsize` field and `uploaded_at`
as the Unix epoch plus `putTime * 100` nanoseconds; on the stat payload of
the test scenario the accessors give the expected size, hash and MIME type,
and the upload time is 2013-02-09T07:41:13.458742Z. -/
theorem object_info_stat_fields :
    (∀ o : ObjectInfo, o.size = o.fsize ∧ o.uploadedAtNanos = o.putTime * 100) ∧
    statObjectInfo.size = 5122935 ∧
    statObjectInfo.hash = "ljfockr0lOil_bZfyaI2ZY78HWoH" ∧
    statObjectInfo.mimeType = "application/octet-stream" ∧
    statObjectInfo.uploadedAtNanos = epochNanosOfCivil 2013 2 9 7 41 13 458742000 :=
  ⟨fun _ => ⟨rfl, rfl⟩, rfl, rfl, rfl, by decide⟩

/-- C8: creating an uploader from an upload token whose parsed policy names
no bucket fails with `BucketIsMissingInUploadToken`, both for
`UploadManager::upload_for_upload_token` and for
`BatchUploader::new_for_upload_manager`; when the policy names a bucket,
both constructions succeed. -/
theorem uploader_requires_bucket_in_token (t : UploadToken) (p : UploadPolicy)
    (hp : t.policyResult = .ok p) :
    (p.bucket = none →
       uploadForUploadToken t = .error .bucketIsMissingInUploadToken ∧
       newForUploadManager t = .error .bucketIsMissingInUploadToken) ∧
    (∀ b, p.bucket = some b →
       uploadForUploadToken t = .ok b ∧
       ∃ u, newForUploadManager t = .ok u) := by
  constructor
  · intro h
    constructor
    · simp [uploadForUploadToken, hp, h]
    · simp [newForUploadManager, hp, h]
  · intro b h
    refine ⟨?_, ⟨⟨[], 0, 0⟩, ?_⟩⟩
    · simp [uploadForUploadToken, hp, h]
    · simp [newForUploadManager, hp, h]

/-- Witness for `uploader_requires_bucket_in_token`: a policy without a
bucket is rejected, a policy scoped to a bucket is accepted. -/
theorem uploader_requires_bucket_in_token_witness :
    (uploadForUploadToken ⟨.ok ⟨none⟩⟩ = .error .bucketIsMissingInUploadToken ∧
     newForUploadManager ⟨.ok ⟨none⟩⟩ = .error .bucketIsMissingInUploadToken) ∧
    (uploadForUploadToken ⟨.ok ⟨some "test-bucket"⟩⟩ = .ok "test-bucket" ∧
     ∃ u, newForUploadManager ⟨.ok ⟨some "test-bucket"⟩⟩ = .ok u) :=
  ⟨(uploader_requires_bucket_in_token ⟨.ok ⟨none⟩⟩ ⟨none⟩ rfl).1 rfl,
   (uploader_requires_bucket_in_token ⟨.ok ⟨some "test-bucket"⟩⟩ ⟨some "test-bucket"⟩ rfl).2
      "test-bucket" rfl⟩

/-- The drain loop empties the vector when given its length as fuel and
spawns the jobs in pop order. -/
theorem popLoop_drains : ∀ (fuel : Nat) (js spawned : List BatchUploadJob),
    js.length ≤ fuel → popLoop fuel js spawned = ([], spawned ++ js.reverse) := by
  intro fuel
  induction fuel with
  | zero =>
    intro js spawned h
    rw [List.length_eq_zero.mp (Nat.le_zero.mp h)]
    simp [popLoop]
  | succ f ih =>
    intro js spawned h
    cases hj : js.reverse with
    | nil =>
      rw [List.reverse_eq_nil_iff.mp hj]
      simp [popLoop, vecPop]
    | cons j rest =>
      have hjs : js = rest.reverse ++ [j] := by
        have := congrArg List.reverse hj
        simpa using this
      have hlen : rest.reverse.length ≤ f := by
        have : js.length = rest.length + 1 := by rw [hjs]; simp
        simp only [List.length_reverse]
        omega
      rw [popLoop]
      simp only [vecPop, hj]
      rw [ih rest.reverse (spawned ++ [j]) hlen]
      simp

/-- C9: after `BatchUploader::start()` returns, the job vector is empty
while the thread-pool-size and max-concurrency settings are unchanged; the
jobs handed to the pool are exactly the queued ones (in pop order), and a
subsequent `push_job` starts a fresh queue, so the uploader is reusable. -/
theorem batch_start_empties_jobs_keeps_settings (u : BatchUploader) :
    (startBatch u).1.jobs = [] ∧
    (startBatch u).1.maxConcurrency = u.maxConcurrency ∧
    (startBatch u).1.threadPoolSize = u.threadPoolSize ∧
    (startBatch u).2 = u.jobs.reverse ∧
    ∀ j, (pushJob (startBatch u).1 j).jobs = [j] := by
  have h := popLoop_drains u.jobs.length u.jobs [] (Nat.le_refl _)
  refine ⟨?_, rfl, rfl, ?_, ?_⟩
  · simp [startBatch, h]
  · simp [startBatch, h]
  · intro j
    simp [pushJob, startBatch, h]

/-- C10: when a region was configured on the builder, `Bucket::region()`
returns it without issuing the discovery query (zero HTTP calls, bucket
unchanged) and `Bucket::regions()` yields the configured primary and
backups; when no region was configured, the first `region()` call issues
exactly one query. -/
theorem bucket_configured_region_skips_query (bb : BucketBuilder) (r : Region)
    (q : List Region) :
    (bb.region = some r →
       bb.build.regionGet q = (some r, bb.build, 0) ∧
       bb.build.regionsList = r :: bb.backupRegions) ∧
    (bb.region = none → (bb.build.regionGet q).2.2 = 1) := by
  constructor
  · intro h
    cases bb with
    | mk reg backups =>
      simp only at h
      subst h
      exact ⟨rfl, rfl⟩
  · intro h
    cases bb with
    | mk reg backups =>
      simp only at h
      subst h
      cases q with
      | nil => rfl
      | cons r₂ rest => rfl

/-- Witness for `bucket_configured_region_skips_query`: a builder with a
configured primary and one backup skips the query; a bare builder issues
one query. -/
theorem bucket_configured_region_skips_query_witness :
    ((BucketBuilder.mk (some ⟨1⟩) [⟨2⟩]).build.regionGet [] =
        (some ⟨1⟩, (BucketBuilder.mk (some ⟨1⟩) [⟨2⟩]).build, 0) ∧
      (BucketBuilder.mk (some ⟨1⟩) [⟨2⟩]).build.regionsList = ⟨1⟩ :: [⟨2⟩]) ∧
    ((BucketBuilder.mk none []).build.regionGet [⟨3⟩]).2.2 = 1 :=
  ⟨(bucket_configured_region_skips_query ⟨some ⟨1⟩, [⟨2⟩]⟩ ⟨1⟩ []).1 rfl,
   (bucket_configured_region_skips_query ⟨none, []⟩ ⟨1⟩ [⟨3⟩]).2 rfl⟩

/-- Folding `var` calls appends one `x:`-prefixed text part per variable,
in order. -/
theorem foldl_formBuilderVar (vars : List (String × String)) : ∀ m : Multipart,
    vars.foldl (fun m kv => formBuilderVar m kv.1 kv.2) m
      = m ++ vars.map (fun kv => ("x:" ++ kv.1, PartContent.text kv.2)) := by
  induction vars with
  | nil => intro m; simp
  | cons x xs ih =>
    intro m
    simp only [List.foldl_cons]
    rw [ih]
    simp [formBuilderVar]

/-- Folding `metadata` calls appends one `x-qn-meta-`-prefixed text part
per entry, in order. -/
theorem foldl_formBuilderMetadata (metas : List (String × String)) : ∀ m : Multipart,
    metas.foldl (fun m kv => formBuilderMetadata m kv.1 kv.2) m
      = m ++ metas.map (fun kv => ("x-qn-meta-" ++ kv.1, PartContent.text kv.2)) := by
  induction metas with
  | nil => intro m; simp
  | cons x xs ih =>
    intro m
    simp only [List.foldl_cons]
    rw [ih]
    simp [formBuilderMetadata]

/-- C5: a form upload from a seekable stream with checksum enabled computes
CRC32/IEEE over the entire stream contents and seeks back to offset 0
before adding the stream, and the multipart body holds, in order: `token`,
`key` (when present), each `x:` var, each `x-qn-meta-` entry, the `file`
stream (the whole data, thanks to the seek), and `crc32` as a decimal
string. With checksum disabled, or for a non-seekable stream with no
caller-supplied checksum, no `crc32` part is produced. -/
theorem form_multipart_part_order (tok : String) (key : Option String)
    (vars metas : List (String × String)) (stream : SeekableStream)
    (hpos : stream.pos = 0) :
    (formBuilderSeekableStream
        (metas.foldl (fun m kv => formBuilderMetadata m kv.1 kv.2)
          (vars.foldl (fun m kv => formBuilderVar m kv.1 kv.2)
            (match key with
             | some k => formBuilderKey (formBuilderNew tok) k
             | none => formBuilderNew tok)))
        stream true
      = [("token", PartContent.text tok)]
          ++ (match key with
              | some k => [("key", PartContent.text k)]
              | none => [])
          ++ vars.map (fun kv => ("x:" ++ kv.1, PartContent.text kv.2))
          ++ metas.map (fun kv => ("x-qn-meta-" ++ kv.1, PartContent.text kv.2))
          ++ [("file", PartContent.file stream.data),
              ("crc32", PartContent.text (Nat.repr (crc32 stream.data)))]) ∧
    (∀ m : Multipart, formBuilderSeekableStream m stream false
        = m ++ [("file", PartContent.file stream.data)]) ∧
    (∀ (m : Multipart) (bytes : List Nat), formBuilderStream m bytes none
        = m ++ [("file", PartContent.file bytes)]) := by
  refine ⟨?_, ?_, ?_⟩
  · rw [foldl_formBuilderMetadata, foldl_formBuilderVar]
    cases key with
    | none =>
      simp [formBuilderSeekableStream, streamReadToEnd, seekStart, formBuilderNew, hpos]
    | some k =>
      simp [formBuilderSeekableStream, streamReadToEnd, seekStart, formBuilderNew,
        formBuilderKey, hpos]
  · intro m
    simp [formBuilderSeekableStream, hpos]
  · intro m bytes
    simp [formBuilderStream]

/-- Witness for `form_multipart_part_order` on a two-byte stream at offset
0 with a key, one var and one metadata entry. -/
theorem form_multipart_part_order_witness :
    (formBuilderSeekableStream
        ([("a", "1")].foldl (fun m kv => formBuilderMetadata m kv.1 kv.2)
          ([("b", "2")].foldl (fun m kv => formBuilderVar m kv.1 kv.2)
            (formBuilderKey (formBuilderNew "tok") "k")))
        ⟨[7, 9], 0⟩ true
      = [("token", PartContent.text "tok")]
          ++ [("key", PartContent.text "k")]
          ++ [("b", "2")].map (fun kv => ("x:" ++ kv.1, PartContent.text kv.2))
          ++ [("a", "1")].map (fun kv => ("x-qn-meta-" ++ kv.1, PartContent.text kv.2))
          ++ [("file", PartContent.file [7, 9]),
              ("crc32", PartContent.text (Nat.repr (crc32 [7, 9])))]) ∧
    (∀ m : Multipart, formBuilderSeekableStream m ⟨[7, 9], 0⟩ false
        = m ++ [("file", PartContent.file [7, 9])]) ∧
    (∀ (m : Multipart) (bytes : List Nat), formBuilderStream m bytes none
        = m ++ [("file", PartContent.file bytes)]) :=
  form_multipart_part_order "tok" (some "k") [("b", "2")] [("a", "1")] ⟨[7, 9], 0⟩ rfl

/-- The success invariant survives a caller arrival. -/
theorem successInv_arrive (v : Nat) : ∀ s : FlightState, SuccessInv v s →
    SuccessInv v (arriveStep s) := by
  rintro ⟨entry, na, wa, le, gv, ge, hc⟩ ⟨h1, h2, h3, h4, h5, h6⟩
  cases na with
  | zero => exact ⟨h1, h2, h3, h4, h5, h6⟩
  | succ na =>
    cases entry with
    | empty =>
      have hc0 : hc = 0 := h3 rfl
      subst hc0
      show SuccessInv v ⟨.inflight, na, wa, le + 1, gv, ge, 1⟩
      exact ⟨Nat.le_refl 1, fun h => absurd h one_ne_zero,
        fun h => EntryState.noConfusion h, fun w hw => EntryState.noConfusion hw, h5, h6⟩
    | inflight =>
      show SuccessInv v ⟨.inflight, na, wa + 1, le, gv, ge, hc⟩
      refine ⟨h1, ?_, fun h => EntryState.noConfusion h,
        fun w hw => EntryState.noConfusion hw, h5, h6⟩
      intro h0
      exact absurd (h2 h0).1 (fun hcon => EntryState.noConfusion hcon)
    | cached w =>
      show SuccessInv v ⟨.cached w, na, wa, le, gv ++ [w], ge, hc⟩
      refine ⟨h1, ?_, fun h => EntryState.noConfusion h, h4, ?_, h6⟩
      · intro h0
        exact absurd (h2 h0).1 (fun hcon => EntryState.noConfusion hcon)
      · intro x hx
        rcases List.mem_append.mp hx with h | h
        · exact h5 x h
        · have hxw : x = w := by simpa using h
          rw [hxw]
          exact h4 w rfl

/-- The success invariant survives completion of the computation. -/
theorem successInv_complete (v : Nat) : ∀ s : FlightState, SuccessInv v s →
    SuccessInv v (completeStep (.success v) s) := by
  rintro ⟨entry, na, wa, le, gv, ge, hc⟩ ⟨h1, h2, h3, h4, h5, h6⟩
  cases entry with
  | empty => exact ⟨h1, h2, h3, h4, h5, h6⟩
  | cached w => exact ⟨h1, h2, h3, h4, h5, h6⟩
  | inflight =>
    show SuccessInv v ⟨.cached v, na, 0, 0, gv ++ List.replicate (le + wa) v, ge, hc⟩
    have hcne : hc ≠ 0 := fun h0 => EntryState.noConfusion (h2 h0).1
    refine ⟨h1, fun h0 => absurd h0 hcne, fun h => EntryState.noConfusion h,
      fun w hw => (EntryState.cached.inj hw).symm, ?_, h6⟩
    intro x hx
    rcases List.mem_append.mp hx with h | h
    · exact h5 x h
    · exact List.eq_of_mem_replicate h

/-- The success invariant holds along any run. -/
theorem successInv_run (v : Nat) (evs : List FlightEvent) : ∀ s : FlightState,
    SuccessInv v s → SuccessInv v (flightRun (.success v) s evs) := by
  induction evs with
  | nil => intro s h; exact h
  | cons ev rest ih =>
    intro s h
    cases ev with
    | arrive => exact ih _ (successInv_arrive v s h)
    | complete => exact ih _ (successInv_complete v s h)

/-- The success invariant holds initially. -/
theorem successInv_init (v n : Nat) : SuccessInv v (flightInit n) :=
  ⟨Nat.zero_le 1, fun _ => ⟨rfl, rfl, rfl, rfl⟩, fun _ => rfl,
    fun _ hw => EntryState.noConfusion hw, fun w hw => absurd hw (List.not_mem_nil w), rfl⟩

/-- The failure invariant survives a caller arrival. -/
theorem failureInv_arrive (e : Nat) : ∀ s : FlightState, FailureInv e s →
    FailureInv e (arriveStep s) := by
  rintro ⟨entry, na, wa, le, gv, ge, hc⟩ ⟨h1, h2, h3, h4, h5, h6⟩
  cases na with
  | zero => exact ⟨h1, h2, h3, h4, h5, h6⟩
  | succ na =>
    cases entry with
    | empty =>
      have hle : le = 0 := by
        have hne : ¬ le = 1 := fun h => EntryState.noConfusion (h3.mpr h)
        have h2x : le ≤ 1 := h2
        omega
      subst hle
      show FailureInv e ⟨.inflight, na, wa, 1, gv, ge, hc + 1⟩
      refine ⟨?_, Nat.le_refl 1, iff_of_true rfl rfl,
        fun w hw => EntryState.noConfusion hw, h5, h6⟩
      show ge.length + 1 = hc + 1
      have h1x : ge.length + 0 = hc := h1
      omega
    | inflight =>
      show FailureInv e ⟨.inflight, na, wa + 1, le, gv, ge, hc⟩
      exact ⟨h1, h2, h3, h4, h5, h6⟩
    | cached w => exact absurd rfl (h4 w)

/-- The failure invariant survives completion of the computation. -/
theorem failureInv_complete (e : Nat) : ∀ s : FlightState, FailureInv e s →
    FailureInv e (completeStep (.failure e) s) := by
  rintro ⟨entry, na, wa, le, gv, ge, hc⟩ ⟨h1, h2, h3, h4, h5, h6⟩
  cases entry with
  | empty => exact ⟨h1, h2, h3, h4, h5, h6⟩
  | cached w => exact absurd rfl (h4 w)
  | inflight =>
    have hle : le = 1 := h3.mp rfl
    subst hle
    show FailureInv e ⟨.empty, na + wa, 0, 0, gv, ge ++ List.replicate 1 e, hc⟩
    refine ⟨?_, Nat.zero_le 1,
      iff_of_false (fun h => EntryState.noConfusion h)
        (fun h => Nat.zero_ne_one (show (0 : Nat) = 1 from h)),
      fun w hw => EntryState.noConfusion hw, h5, ?_⟩
    case _ =>
      show (ge ++ List.replicate 1 e).length + 0 = hc
      have h1x : ge.length + 1 = hc := h1
      simp
      omega
    intro x hx
    rcases List.mem_append.mp hx with h | h
    · exact h6 x h
    · exact List.eq_of_mem_replicate h

/-- The failure invariant holds along any run. -/
theorem failureInv_run (e : Nat) (evs : List FlightEvent) : ∀ s : FlightState,
    FailureInv e s → FailureInv e (flightRun (.failure e) s evs) := by
  induction evs with
  | nil => intro s h; exact h
  | cons ev rest ih =>
    intro s h
    cases ev with
    | arrive => exact ih _ (failureInv_arrive e s h)
    | complete => exact ih _ (failureInv_complete e s h)

/-- The failure invariant holds initially. -/
theorem failureInv_init (e n : Nat) : FailureInv e (flightInit n) :=
  ⟨rfl, Nat.zero_le 1, iff_of_false (fun h => EntryState.noConfusion h) one_ne_zero.symm,
    fun _ hw => EntryState.noConfusion hw, rfl, fun x hx => absurd hx (List.not_mem_nil x)⟩

/-- Arriving at a purged (empty) entry issues a fresh HTTP call. -/
theorem arriveStep_empty_calls : ∀ s : FlightState, s.entry = .empty → 0 < s.notArrived →
    (arriveStep s).httpCalls = s.httpCalls + 1 := by
  rintro ⟨entry, na, wa, le, gv, ge, hc⟩ hemp hna
  simp only at hemp
  subst hemp
  cases na with
  | zero => exact absurd (show (0 : Nat) < 0 from hna) (Nat.lt_irrefl 0)
  | succ na => rfl

/-- C2: single-flight semantics of the discovery caches. In any
interleaving of `n` concurrent callers on one key: when the computation
succeeds with `v`, at most one underlying HTTP call happens, every caller
that finished observed exactly `v`, nobody observed an error, and once
anyone has a value exactly one call was issued. When the computation fails
with `e`, each issued call is accounted for by exactly one error observer
(or the single in-flight leader), every observed error is `e`, no value is
ever observed, and after the entry is purged a later arrival issues a new
call. -/
theorem single_flight_cache (n v e : Nat) (evs : List FlightEvent) :
    (∀ s, s = flightRun (.success v) (flightInit n) evs →
       s.httpCalls ≤ 1 ∧ (∀ w ∈ s.gotValues, w = v) ∧ s.gotErrors = [] ∧
       (s.gotValues ≠ [] → s.httpCalls = 1)) ∧
    (∀ t, t = flightRun (.failure e) (flightInit n) evs →
       t.gotErrors.length + t.leading = t.httpCalls ∧
       t.leading ≤ 1 ∧
       (∀ x ∈ t.gotErrors, x = e) ∧
       t.gotValues = [] ∧
       (t.entry = .empty → 0 < t.notArrived →
          (arriveStep t).httpCalls = t.httpCalls + 1)) := by
  constructor
  · intro s hs
    have hinv := successInv_run v evs (flightInit n) (successInv_init v n)
    rw [← hs] at hinv
    obtain ⟨h1, h2, _, _, h5, h6⟩ := hinv
    refine ⟨h1, h5, h6, ?_⟩
    intro hne
    have h0 : s.httpCalls ≠ 0 := fun h0 => hne (h2 h0).2.2.2
    omega
  · intro t ht
    have hinv := failureInv_run e evs (flightInit n) (failureInv_init e n)
    rw [← ht] at hinv
    obtain ⟨h1, h2, _, _, h5, h6⟩ := hinv
    exact ⟨h1, h2, h6, h5, arriveStep_empty_calls t⟩

/-- Witness for `single_flight_cache`: four callers, two of which arrive
before the computation completes. On success both observers got the value
and one call was made; on failure one error was observed, the entry was
purged and a re-arrival issues a second call. -/
theorem single_flight_cache_witness :
    (flightRun (.success 7) (flightInit 4) [.arrive, .arrive, .complete]).httpCalls = 1 ∧
    (∀ w ∈ (flightRun (.success 7) (flightInit 4) [.arrive, .arrive, .complete]).gotValues,
       w = 7) ∧
    (flightRun (.failure 3) (flightInit 4) [.arrive, .arrive, .complete]).gotErrors.length +
        (flightRun (.failure 3) (flightInit 4) [.arrive, .arrive, .complete]).leading =
      (flightRun (.failure 3) (flightInit 4) [.arrive, .arrive, .complete]).httpCalls ∧
    (arriveStep (flightRun (.failure 3) (flightInit 4) [.arrive, .arrive, .complete])).httpCalls =
      (flightRun (.failure 3) (flightInit 4) [.arrive, .arrive, .complete]).httpCalls + 1 :=
  ⟨((single_flight_cache 4 7 3 [.arrive, .arrive, .complete]).1 _ rfl).2.2.2 (by decide),
   ((single_flight_cache 4 7 3 [.arrive, .arrive, .complete]).1 _ rfl).2.1,
   ((single_flight_cache 4 7 3 [.arrive, .arrive, .complete]).2 _ rfl).1,
   ((single_flight_cache 4 7 3 [.arrive, .arrive, .complete]).2 _ rfl).2.2.2.2 (by decide)
     (by decide)⟩

end QiniuSdk
